import Mathlib

/-!
Verification of the hf-dataset curation toolkit.

The Python scripts under scripts/ are shallowly embedded here:
filenames are Lean strings processed as character lists, the
SHA-256 hashers are abstract function parameters, and the file
system is an abstract existence/digest oracle.
-/

set_option maxRecDepth 4000

/-! ## List utilities (Python string operations on character lists) -/

/-- Python substring test helper: p is a leading block of l. -/
def isPre : List Char → List Char → Bool
  | [], _ => true
  | _ :: _, [] => false
  | a :: as, b :: bs => if a = b then isPre as bs else false

/-- Python `p in s` substring containment on character lists. -/
def containsSub (p : List Char) : List Char → Bool
  | [] => isPre p []
  | c :: t => isPre p (c :: t) || containsSub p t

/-- Python `s.endswith(p)` on character lists. -/
def isSuf (p l : List Char) : Bool := isPre p.reverse l.reverse

/-- Python `name.split("_")`. -/
def splitUnd : List Char → List (List Char)
  | [] => [[]]
  | c :: t =>
    if c = '_' then [] :: splitUnd t
    else
      match splitUnd t with
      | [] => [[c]]
      | p :: ps => (c :: p) :: ps

/-! ## Filename classifier (scripts/build_manifest.py) -/

/-- Known emotions used in the dataset (build_manifest.py line 11). -/
def EMOTIONS : List String := ["angry", "happy", "sad", "tender", "original", "original1"]

/-- Tail of the regex `^\d{4,5}-`: after four digits, either a hyphen,
or a fifth digit followed by a hyphen. -/
def archTail : List Char → Bool
  | [] => false
  | [x] => decide (x = '-')
  | x :: y :: _ => decide (x = '-') || (x.isDigit && decide (y = '-'))

/-- `re.match(r"^\d{4,5}-", name)` as a Boolean on character lists. -/
def archivalMatch : List Char → Bool
  | a :: b :: c :: d :: rest =>
    a.isDigit && b.isDigit && c.isDigit && d.isDigit && archTail rest
  | _ => false

/-- Index of the last dot in the name, as in CPython `str.rfind('.')`. -/
def rfindDot : List Char → Option Nat
  | [] => none
  | c :: t =>
    match rfindDot t with
    | some i => some (i + 1)
    | none => if c = '.' then some 0 else none

/-- CPython `PurePath(name).stem` for a name with no directory part:
drop the extension when the last dot is neither leading nor trailing. -/
def pyStem (name : List Char) : List Char :=
  match rfindDot name with
  | some i => if 0 < i ∧ i < name.length - 1 then name.take i else name
  | none => name

/-- The emotion-ending loop of `extract_song_name` (lines 76-79):
first emotion whose `_<emotion>` ending matches is stripped. -/
def songSuffixScan : List String → List Char → List Char
  | [], name => name
  | e :: rest, name =>
    if isSuf ('_' :: e.toList) name then
      name.take (name.length - ('_' :: e.toList).length)
    else songSuffixScan rest name

/-- Body of `extract_song_name` applied to the stem (lines 64-81). -/
def songFromStem (name : List Char) : List Char :=
  if archivalMatch name then name
  else if containsSub "_torr_".toList name || containsSub "_cleaned".toList name then
    (splitUnd name).headD []
  else songSuffixScan EMOTIONS name

/-- `extract_song_name` (build_manifest.py lines 52-81). -/
def extract_song_name (filename : String) : String :=
  String.mk (songFromStem (pyStem filename.toList))

/-- The emotion loop of `extract_emotion` (lines 97-105): first emotion
whose `_<emotion>` substring occurs wins; `original1` normalizes to
`original`. -/
def emotionScan : List String → List Char → Option String
  | [], _ => none
  | e :: rest, name =>
    if e = "original1" then
      if containsSub ('_' :: e.toList) name then some "original" else emotionScan rest name
    else if containsSub ('_' :: e.toList) name then some e
    else emotionScan rest name

/-- `extract_emotion` (build_manifest.py lines 84-105). -/
def extract_emotion (filename : String) : Option String :=
  let name := pyStem filename.toList
  if archivalMatch name then none else emotionScan EMOTIONS name

/-! ## Manifest builder (scripts/build_manifest.py, main) -/

/-- Songs known to have emotional variations (build_manifest.py lines 14-35). -/
def SONGS_WITH_VARIATIONS : List String :=
  ["Fuglesangen", "Godvaersdagen", "GroHolto", "Haslebuskane", "Havbrusen",
   "IvarJorde", "Klunkelatten", "Kongelatten", "Langaakern", "LattenSomBedOmNoko",
   "Perigarden", "Silkjegulen", "Solmoy", "Strandaspringar", "Tjednbalen",
   "Toingen", "Valdresspringar", "Vossarull", "SigneUladalen", "Spretten"]

/-- Repository-relative audio path for a stem (line 127). -/
def audioRel (stem : String) : String := "data/raw/audio/" ++ stem ++ ".wav"

/-- Repository-relative MIDI path for a stem (line 128). -/
def midiRel (stem : String) : String := "data/raw/midi/" ++ stem ++ ".mid"

/-- The id input string `f"{audio_relpath}:{midi_relpath}"` (line 131). -/
def idString (stem : String) : String := audioRel stem ++ ":" ++ midiRel stem

structure ManifestRow where
  id : String
  song_name : String
  audio_relpath : String
  midi_relpath : String
  audio_sha256 : String
  midi_sha256 : String
  audio_ext : String
  midi_ext : String
  has_emotional_variations : Bool
  emotion : String
  notes : String
deriving DecidableEq

/-- The `notes` column (lines 144-148). -/
def rowNotes (song name : String) : String :=
  if archivalMatch song.toList then "archival"
  else if containsSub "_cleaned".toList name.toList ||
      containsSub "_torr_".toList name.toList then "processed"
  else ""

/-- One manifest row for an audio stem (lines 118-164); `hash` stands for
`sha256_string` and `fileHash` for `sha256_file` on the referenced path. -/
def mkRow (hash fileHash : String → String) (stem : String) : ManifestRow :=
  let name := stem ++ ".wav"
  let song := extract_song_name name
  { id := hash (idString stem)
    song_name := song
    audio_relpath := audioRel stem
    midi_relpath := midiRel stem
    audio_sha256 := fileHash (audioRel stem)
    midi_sha256 := fileHash (midiRel stem)
    audio_ext := ".wav"
    midi_ext := ".mid"
    has_emotional_variations := SONGS_WITH_VARIATIONS.contains song
    emotion := (extract_emotion name).getD ""
    notes := rowNotes song name }

/-- The manifest build loop (lines 115-164) over the sorted audio stems:
produces the rows and the warned-about audio files lacking a MIDI
counterpart, in listing order. -/
def build_manifest (hash fileHash : String → String) (midiExists : String → Bool) :
    List String → List ManifestRow × List String
  | [] => ([], [])
  | stem :: rest =>
    let r := build_manifest hash fileHash midiExists rest
    if midiExists stem then (mkRow hash fileHash stem :: r.1, r.2)
    else (r.1, (stem ++ ".wav") :: r.2)

/-! ## Manifest validator (scripts/validate_dataset.py, main) -/

structure Mismatch where
  file : String
  expected : String
  actual : String
deriving DecidableEq

/-- One manifest CSV row as read back by the validator; every column is the
raw CSV string. -/
structure VRow where
  id : String
  song_name : String
  has_emotional_variations : String
  audio_relpath : String
  audio_sha256 : String
  midi_relpath : String
  midi_sha256 : String
deriving DecidableEq

/-- The validator report plus its tracking sets; Python sets are modelled as
insertion-ordered duplicate-free lists. -/
structure VState where
  status : String
  seen : List String
  missing : List String
  mismatches : List Mismatch
  dups : List String
  songs : List String
  songsWith : List String
  songsWithout : List String
deriving DecidableEq

/-- Python `set.add`. -/
def addOnce (s : List String) (x : String) : List String :=
  if x ∈ s then s else s ++ [x]

/-- Existence and checksum verification for one referenced file
(validate_dataset.py lines 66-96, one side); `ex` is path existence and `dg`
the live digest of the file at a path. -/
def checkFile (ex : String → Bool) (dg : String → String)
    (relpath stored : String) (st : VState) : VState :=
  if ex relpath then
    if dg relpath ≠ stored then
      { st with
        mismatches := st.mismatches ++ [⟨relpath, stored, dg relpath⟩]
        status := "fail" }
    else st
  else { st with missing := st.missing ++ [relpath], status := "fail" }

/-- The validator loop body for one row (lines 51-96). -/
def vStep (ex : String → Bool) (dg : String → String) (st : VState) (r : VRow) : VState :=
  let st1 := if r.id ∈ st.seen then
      { st with dups := st.dups ++ [r.id], status := "fail" } else st
  let st2 := { st1 with seen := addOnce st1.seen r.id }
  let st3 := { st2 with
    songs := addOnce st2.songs r.song_name
    songsWith := if r.has_emotional_variations = "True"
      then addOnce st2.songsWith r.song_name else st2.songsWith
    songsWithout := if r.has_emotional_variations = "True"
      then st2.songsWithout else addOnce st2.songsWithout r.song_name }
  let st4 := checkFile ex dg r.audio_relpath r.audio_sha256 st3
  checkFile ex dg r.midi_relpath r.midi_sha256 st4

def initVState : VState := ⟨"pass", [], [], [], [], [], [], []⟩

/-- The whole validation pass (lines 26-100). -/
def validate (ex : String → Bool) (dg : String → String) (rows : List VRow) : VState :=
  rows.foldl (vStep ex dg) initVState

/-- Missing-file entries contributed by one row. -/
def rowMissing (ex : String → Bool) (r : VRow) : List String :=
  (if ex r.audio_relpath then [] else [r.audio_relpath]) ++
    (if ex r.midi_relpath then [] else [r.midi_relpath])

/-- Checksum-mismatch entries contributed by one row. -/
def rowMismatches (ex : String → Bool) (dg : String → String) (r : VRow) : List Mismatch :=
  (if ex r.audio_relpath ∧ dg r.audio_relpath ≠ r.audio_sha256
    then [⟨r.audio_relpath, r.audio_sha256, dg r.audio_relpath⟩] else []) ++
    (if ex r.midi_relpath ∧ dg r.midi_relpath ≠ r.midi_sha256
      then [⟨r.midi_relpath, r.midi_sha256, dg r.midi_relpath⟩] else [])

/-! ## CSV to MIDI converter (scripts/csv_to_midi.py) -/

/-- Python `round` on a rational value: nearest integer, ties to even. -/
def pyRound (q : ℚ) : ℤ :=
  let f : ℤ := ⌊q⌋
  let r : ℚ := q - f
  if r < 1 / 2 then f
  else if 1 / 2 < r then f + 1
  else if 2 ∣ f then f else f + 1

/-- Pitch conversion of csv_to_midi.py lines 50-52: round, then clamp into
the MIDI range 0-127. -/
def clampPitch (q : ℚ) : ℤ := max 0 (min 127 (pyRound q))

structure MidiNote where
  velocity : ℤ
  pitch : ℤ
  start : ℚ
  stop : ℚ
deriving DecidableEq

/-- Lookup in the row dict built by `csv.DictReader`; with duplicate header
names the last value wins, as in a Python dict built from pairs. -/
def dictGet : List (String × ℚ) → String → Option ℚ
  | [], _ => none
  | (k, v) :: rest, key =>
    match dictGet rest key with
    | some w => some w
    | none => if key = k then some v else none

/-- The row dict of one CSV record under the given header. -/
def pyDict (header : List String) (vals : List ℚ) : List (String × ℚ) :=
  header.zip vals

/-- One loop iteration of `csv_to_midi` (lines 49-61): a missing field raises
`KeyError`, aborting the whole conversion; lookups happen in source order
(`onpitch`, then `onset`, then `offset`). -/
def noteFromRow (velocity : ℤ) (d : List (String × ℚ)) : Except String MidiNote :=
  match dictGet d "onpitch" with
  | none => Except.error "KeyError: onpitch"
  | some op =>
    match dictGet d "onset" with
    | none => Except.error "KeyError: onset"
    | some hs =>
      match dictGet d "offset" with
      | none => Except.error "KeyError: offset"
      | some he => Except.ok ⟨velocity, clampPitch op, hs, he⟩

/-- `csv_to_midi` (lines 32-65) on parsed CSV content: an ok value is the
note list written to the single-instrument MIDI output, in input row order;
an error means the conversion aborted and no output file was produced. -/
def csv_to_midi (header : List String) (rows : List (List ℚ)) (velocity : ℤ) :
    Except String (List MidiNote) :=
  match rows with
  | [] => Except.ok []
  | vals :: rest =>
    match noteFromRow velocity (pyDict header vals) with
    | Except.error e => Except.error e
    | Except.ok n =>
      match csv_to_midi header rest velocity with
      | Except.error e => Except.error e
      | Except.ok ns => Except.ok (n :: ns)

/-- The note produced from one complete row. -/
def noteOf (header : List String) (velocity : ℤ) (vals : List ℚ) : MidiNote :=
  ⟨velocity, clampPitch ((dictGet (pyDict header vals) "onpitch").getD 0),
    (dictGet (pyDict header vals) "onset").getD 0,
    (dictGet (pyDict header vals) "offset").getD 0⟩

/-! ## Health checkers (scripts/check_midi_health.py, check_audio_health.py) -/

/-- Issues recorded by the MIDI health check, tagging the issue strings of
check_midi_health.py. -/
inductive MIssue where
  | failedToLoad
  | noNotes
  | pitchLow (p : Nat)
  | pitchHigh (p : Nat)
  | durationLow
  | durationHigh
deriving DecidableEq

/-- The critical-issue test of check_midi_health.py line 123 (`"No notes" in
issue or "Failed to load" in issue`). -/
def criticalM : MIssue → Bool
  | MIssue.failedToLoad => true
  | MIssue.noNotes => true
  | _ => false

/-- Decoded MIDI content as returned by the external parser: the `note_on`
pitches and the duration in seconds. -/
structure MidiData where
  notes : List Nat
  duration : ℚ

structure CheckResult (I : Type) where
  valid : Bool
  issues : List I
deriving DecidableEq

/-- `check_midi_file` (check_midi_health.py lines 36-126) on the decoded
content; `none` models a load failure. MIN_PITCH = 9, MAX_PITCH = 120,
duration limits 1 and 600 seconds. -/
def check_midi_file (load : Option MidiData) : CheckResult MIssue :=
  match load with
  | none => ⟨false, [MIssue.failedToLoad]⟩
  | some m =>
    match m.notes with
    | [] => ⟨false, [MIssue.noNotes]⟩
    | n :: ns =>
      let mn := (n :: ns).foldl Nat.min n
      let mx := (n :: ns).foldl Nat.max n
      let issues :=
        (if mn < 9 then [MIssue.pitchLow mn] else []) ++
          (if 120 < mx then [MIssue.pitchHigh mx] else []) ++
          (if m.duration < 1 then [MIssue.durationLow] else []) ++
          (if 600 < m.duration then [MIssue.durationHigh] else [])
      ⟨!issues.any criticalM, issues⟩

/-- Issues recorded by the audio health check, tagging the issue strings of
check_audio_health.py. -/
inductive AIssue where
  | failedToLoad
  | completelySilent
  | durationLow
  | durationHigh
  | lowNonSilentShare
  | clipping
deriving DecidableEq

/-- The critical-issue test of check_audio_health.py lines 148-149
(`"Failed to load"` or `"completely silent"` in the issue). -/
def criticalA : AIssue → Bool
  | AIssue.failedToLoad => true
  | AIssue.completelySilent => true
  | _ => false

/-- Signal statistics of a decoded audio file as measured by the script. -/
structure AudioData where
  duration : ℚ
  maxAmp : ℚ
  nonSilentShare : ℚ
  clippedShare : ℚ

/-- `check_audio_file` (check_audio_health.py lines 40-152) on the decoded
content; `none` models a load failure. Duration limits 5 and 300 seconds,
silence cutoff 1e-6, non-silent floor 0.10, clipping ceiling 0.001. -/
def check_audio_file (load : Option AudioData) : CheckResult AIssue :=
  match load with
  | none => ⟨false, [AIssue.failedToLoad]⟩
  | some a =>
    let durIssues :=
      (if a.duration < 5 then [AIssue.durationLow] else []) ++
        (if 300 < a.duration then [AIssue.durationHigh] else [])
    let silenceIssues :=
      if a.maxAmp < 1 / 1000000 then [AIssue.completelySilent]
      else if a.nonSilentShare < 1 / 10 then [AIssue.lowNonSilentShare] else []
    let clipIssues :=
      if 1 / 1000 < a.clippedShare then [AIssue.clipping] else []
    let issues := durIssues ++ silenceIssues ++ clipIssues
    ⟨!issues.any criticalA, issues⟩

/-- The aggregate report status (lines 169-184 of the MIDI script, lines
212-227 of the audio one): `fail` when any file is invalid, and under
`--strict` also when any valid file carries warnings. -/
def report_status {I : Type} (results : List (CheckResult I)) (strict : Bool) : String :=
  let invalidCount := (results.filter (fun r => !r.valid)).length
  let warningCount := (results.filter (fun r => r.valid && !r.issues.isEmpty)).length
  let st := if invalidCount = 0 then "pass" else "fail"
  if strict && 0 < warningCount then "fail" else st

/-! ## Publisher (scripts/publish_to_huggingface.py) -/

def REPO_ID : String := "Bots4M/HF2-Hardanger-fiddle-dataset"

/-- Outcome of the publish flow. -/
inductive PubResult where
  | exited (code : Nat)
  | dryRunOk
  | uploaded (repo : String) (version : String)
deriving DecidableEq

/-- `publish` (publish_to_huggingface.py lines 63-121): `gitTag` is the exact
tag at HEAD if any, `clean` whether the working tree is clean, `hubInstalled`
whether the upload library imports. -/
def publish (gitTag : Option String) (clean hubInstalled : Bool)
    (version : String) (dryRun force : Bool) : PubResult :=
  let tagGate : Option PubResult :=
    match gitTag with
    | none => if !force then some (PubResult.exited 1) else none
    | some t =>
      if t ≠ version ∧ "dataset-" ++ version ≠ t then some (PubResult.exited 1)
      else none
  match tagGate with
  | some r => r
  | none =>
    if !clean && !force then PubResult.exited 1
    else if !hubInstalled then PubResult.exited 1
    else if dryRun then PubResult.dryRunOk
    else PubResult.uploaded REPO_ID version

/-! ## Theorems -/

lemma isPre_iff (p : List Char) : ∀ l, isPre p l = true ↔ ∃ t, l = p ++ t := by
  induction p with
  | nil =>
    intro l
    constructor
    · intro _; exact ⟨l, rfl⟩
    · intro _; rfl
  | cons a as ih =>
    intro l
    cases l with
    | nil =>
      constructor
      · intro h; simp [isPre] at h
      · rintro ⟨t, ht⟩; simp at ht
    | cons b bs =>
      constructor
      · intro h
        rw [isPre] at h
        by_cases hab : a = b
        · subst hab
          rw [if_pos rfl] at h
          obtain ⟨t, ht⟩ := (ih bs).mp h
          exact ⟨t, by rw [ht]; rfl⟩
        · rw [if_neg hab] at h; exact absurd h (by simp)
      · rintro ⟨t, ht⟩
        rw [List.cons_append] at ht
        injection ht with h1 h2
        subst h1
        rw [isPre, if_pos rfl]
        exact (ih bs).mpr ⟨t, h2⟩

lemma isPre_refl (p : List Char) : isPre p p = true :=
  (isPre_iff p p).mpr ⟨[], by simp⟩

lemma isPre_append_self (p r : List Char) : isPre p (p ++ r) = true :=
  (isPre_iff p (p ++ r)).mpr ⟨r, rfl⟩

lemma isPre_length {p l : List Char} (h : isPre p l = true) : p.length ≤ l.length := by
  obtain ⟨t, ht⟩ := (isPre_iff p l).mp h
  subst ht; simp

lemma isPre_of_long {s p : List Char} (h : isPre s p = true)
    (hl : p.length ≤ s.length) : s = p := by
  obtain ⟨t, ht⟩ := (isPre_iff s p).mp h
  subst ht
  rw [List.length_append] at hl
  have : t = [] := List.length_eq_zero.mp (by omega)
  simp [this]

lemma isPre_trans {p q l : List Char} (h1 : isPre p q = true)
    (h2 : isPre q l = true) : isPre p l = true := by
  obtain ⟨t1, ht1⟩ := (isPre_iff p q).mp h1
  obtain ⟨t2, ht2⟩ := (isPre_iff q l).mp h2
  exact (isPre_iff p l).mpr ⟨t1 ++ t2, by rw [ht2, ht1, List.append_assoc]⟩

lemma memOfPre {u w : List Char} {x : Char} (h : isPre u w = true) (hx : x ∈ u) :
    x ∈ w := by
  obtain ⟨t, ht⟩ := (isPre_iff u w).mp h
  subst ht; exact List.mem_append_left t hx

/-- Splitting a leading-block test across an append: either the pattern fits
inside the left part, or the left part is an initial block of the pattern and
the remainder of the pattern leads the right part. -/
lemma preSplit : ∀ (s p b : List Char), isPre p (s ++ b) = true →
    isPre p s = true ∨ (isPre s p = true ∧ isPre (p.drop s.length) b = true) := by
  intro s
  induction s with
  | nil =>
    intro p b h
    exact Or.inr ⟨rfl, h⟩
  | cons c s ih =>
    intro p b h
    cases p with
    | nil => exact Or.inl rfl
    | cons d p =>
      rw [List.cons_append, isPre] at h
      by_cases hdc : d = c
      · subst hdc
        rw [if_pos rfl] at h
        rcases ih p b h with h1 | ⟨h1, h2⟩
        · exact Or.inl (by rw [isPre, if_pos rfl]; exact h1)
        · refine Or.inr ⟨by rw [isPre, if_pos rfl]; exact h1, ?_⟩
          simpa using h2
      · rw [if_neg hdc] at h; exact absurd h (by simp)

lemma subCons {p : List Char} {c : Char} {t : List Char}
    (h : containsSub p (c :: t) = false) :
    isPre p (c :: t) = false ∧ containsSub p t = false := by
  rw [containsSub] at h
  exact ⟨by simpa using (Bool.or_eq_false_iff.mp h).1,
    (Bool.or_eq_false_iff.mp h).2⟩

lemma notPreOfNotSub {p t : List Char} (h : containsSub p t = false) :
    isPre p t = false := by
  cases t with
  | nil => exact h
  | cons c t => exact (subCons h).1

lemma subAppendRight (p : List Char) : ∀ (a b : List Char),
    containsSub p b = true → containsSub p (a ++ b) = true := by
  intro a
  induction a with
  | nil => intro b h; exact h
  | cons c a ih =>
    intro b h
    rw [List.cons_append, containsSub, ih b h, Bool.or_true]

lemma subSelfAppend (p t : List Char) : containsSub p (t ++ p) = true := by
  apply subAppendRight
  cases p with
  | nil => rfl
  | cons c q => rw [containsSub, isPre_refl]; rfl

lemma subOfPreSub {p q t : List Char} (hpq : isPre p q = true)
    (h : containsSub q t = true) : containsSub p t = true := by
  induction t with
  | nil =>
    rw [containsSub] at h ⊢
    exact isPre_trans hpq h
  | cons c t ih =>
    rw [containsSub] at h ⊢
    rcases Bool.or_eq_true_iff.mp h with h1 | h1
    · rw [isPre_trans hpq h1]; rfl
    · rw [ih h1, Bool.or_true]

/-- A pattern starting with an underscore never occurs in an
underscore-free list. -/
lemma subNoUnderscore {q : List Char} : ∀ {w : List Char}, '_' ∉ w →
    containsSub ('_' :: q) w = false := by
  intro w
  induction w with
  | nil => intro _; rfl
  | cons c w ih =>
    intro hw
    rw [containsSub, isPre]
    have hc : ¬('_' = c) := fun h => hw (h ▸ List.mem_cons_self c w)
    rw [if_neg hc]
    simpa using ih (fun h => hw (List.mem_cons_of_mem c h))

lemma preConsNe {x c : Char} {rest l : List Char} (hx : ¬(x = c)) :
    isPre (x :: rest) (c :: l) = false := by rw [isPre, if_neg hx]

lemma isPre_ext {p m : List Char} (r : List Char) (h : isPre p m = true) :
    isPre p (m ++ r) = true := by
  obtain ⟨u, hu⟩ := (isPre_iff p m).mp h
  exact (isPre_iff p (m ++ r)).mpr ⟨u ++ r, by rw [hu, List.append_assoc]⟩

lemma isSuf_self (p : List Char) : isSuf p p = true := isPre_refl p.reverse

lemma isSuf_append_self (p t : List Char) : isSuf p (t ++ p) = true := by
  rw [isSuf, List.reverse_append]
  exact isPre_append_self p.reverse t.reverse

lemma isSufConsFalse {s : List Char} {c : Char} {t : List Char}
    (h : isSuf s (c :: t) = false) : isSuf s t = false := by
  cases hs : isSuf s t with
  | false => rfl
  | true =>
    rw [isSuf] at hs h
    rw [show (c :: t).reverse = t.reverse ++ [c] by simp] at h
    rw [isPre_ext [c] hs] at h
    exact absurd h (by simp)

lemma takeLen (a b : List Char) :
    (a ++ b).take ((a ++ b).length - b.length) = a := by
  rw [List.length_append]
  have h : a.length + b.length - b.length = a.length := by omega
  rw [h, List.take_left]

/-- Spanning analysis for an underscore-led pattern: appending `'_' :: w` to a
list that does not contain the pattern cannot create an occurrence, unless the
pattern body leads `w`. -/
lemma subSpan {q w : List Char} (hq : '_' ∉ q) (hw : '_' ∉ w)
    (hqw : isPre q w = false) :
    ∀ t, containsSub ('_' :: q) t = false →
      containsSub ('_' :: q) (t ++ '_' :: w) = false := by
  intro t
  induction t with
  | nil =>
    intro _
    rw [List.nil_append, containsSub, isPre, if_pos rfl, hqw, subNoUnderscore hw]
    rfl
  | cons c t ih =>
    intro h
    obtain ⟨h1, h2⟩ := subCons h
    rw [List.cons_append, containsSub, ih h2, Bool.or_false]
    rw [show c :: (t ++ '_' :: w) = (c :: t) ++ '_' :: w from rfl]
    cases hcon : isPre ('_' :: q) ((c :: t) ++ '_' :: w) with
    | false => rfl
    | true =>
      rcases preSplit (c :: t) ('_' :: q) ('_' :: w) hcon with hin | ⟨hsp, hdr⟩
      · rw [hin] at h1; exact absurd h1 (by simp)
      · rw [List.length_cons, List.drop_succ_cons] at hdr
        cases hqd : q.drop t.length with
        | nil =>
          have hlen : q.length ≤ t.length := by
            have h5 := congrArg List.length hqd
            rw [List.length_drop, List.length_nil] at h5
            omega
          have heq : c :: t = '_' :: q :=
            isPre_of_long hsp (by simp; omega)
          rw [heq, isPre_refl] at h1
          exact absurd h1 (by simp)
        | cons y ys =>
          have hy : y ∈ q := List.drop_subset t.length q (hqd ▸ List.mem_cons_self y ys)
          have hyne : ¬(y = '_') := fun hcontra => hq (hcontra ▸ hy)
          rw [hqd, preConsNe hyne] at hdr
          exact absurd hdr (by simp)

/-- Spanning analysis for the `_torr_` marker: appending `'_' :: w` to a list
that neither contains `_torr_` nor ends with `_torr` cannot create an
occurrence of `_torr_`. -/
lemma subSpanTorr {w : List Char} (hw : '_' ∉ w) :
    ∀ t, containsSub "_torr_".toList t = false → isSuf "_torr".toList t = false →
      containsSub "_torr_".toList (t ++ '_' :: w) = false := by
  intro t
  induction t with
  | nil =>
    intro _ _
    have h1 : isPre "_torr_".toList ('_' :: w) = false := by
      rw [show "_torr_".toList = '_' :: "torr_".toList from rfl, isPre, if_pos rfl]
      cases hr : isPre "torr_".toList w with
      | false => rfl
      | true => exact absurd (memOfPre hr (by decide)) hw
    have h2 : containsSub "_torr_".toList w = false := subNoUnderscore hw
    rw [List.nil_append, containsSub, h1, h2]
    rfl
  | cons c t ih =>
    intro h hsuf
    obtain ⟨h1, h2⟩ := subCons h
    rw [List.cons_append, containsSub, ih h2 (isSufConsFalse hsuf), Bool.or_false]
    rw [show c :: (t ++ '_' :: w) = (c :: t) ++ '_' :: w from rfl]
    cases hcon : isPre "_torr_".toList ((c :: t) ++ '_' :: w) with
    | false => rfl
    | true =>
      rcases preSplit (c :: t) "_torr_".toList ('_' :: w) hcon with hin | ⟨hsp, hdr⟩
      · rw [hin] at h1; exact absurd h1 (by simp)
      · obtain ⟨r, hr⟩ := (isPre_iff (c :: t) "_torr_".toList).mp hsp
        rw [show "_torr_".toList = ['_', 't', 'o', 'r', 'r', '_'] from rfl,
          List.cons_append] at hr
        injection hr with hc hr
        subst hc
        cases t with
        | nil =>
          have hdr2 : isPre ['t', 'o', 'r', 'r', '_'] ('_' :: w) = true := hdr
          rw [preConsNe (by decide)] at hdr2
          exact absurd hdr2 (by simp)
        | cons c2 t =>
          rw [List.cons_append] at hr
          injection hr with hc2 hr
          subst hc2
          cases t with
          | nil =>
            have hdr2 : isPre ['o', 'r', 'r', '_'] ('_' :: w) = true := hdr
            rw [preConsNe (by decide)] at hdr2
            exact absurd hdr2 (by simp)
          | cons c3 t =>
            rw [List.cons_append] at hr
            injection hr with hc3 hr
            subst hc3
            cases t with
            | nil =>
              have hdr2 : isPre ['r', 'r', '_'] ('_' :: w) = true := hdr
              rw [preConsNe (by decide)] at hdr2
              exact absurd hdr2 (by simp)
            | cons c4 t =>
              rw [List.cons_append] at hr
              injection hr with hc4 hr
              subst hc4
              cases t with
              | nil =>
                have hdr2 : isPre ['r', '_'] ('_' :: w) = true := hdr
                rw [preConsNe (by decide)] at hdr2
                exact absurd hdr2 (by simp)
              | cons c5 t =>
                rw [List.cons_append] at hr
                injection hr with hc5 hr
                subst hc5
                cases t with
                | nil =>
                  rw [show isSuf "_torr".toList ['_', 't', 'o', 'r', 'r'] = true
                    from isSuf_self "_torr".toList] at hsuf
                  exact absurd hsuf (by simp)
                | cons c6 t =>
                  rw [List.cons_append] at hr
                  injection hr with hc6 hr
                  subst hc6
                  have ht : t = [] ∧ r = [] := by
                    constructor
                    · cases t with
                      | nil => rfl
                      | cons x xs => exact absurd hr (by simp)
                    · cases t with
                      | nil => simpa using hr
                      | cons x xs => exact absurd hr (by simp)
                  rw [ht.1] at h1
                  rw [show isPre "_torr_".toList ['_', 't', 'o', 'r', 'r', '_'] = true
                    from isPre_refl "_torr_".toList] at h1
                  exact absurd h1 (by simp)

/-- If an underscore-led pattern is an ending of `t ++ '_' :: w` and neither
the pattern body nor `w` contains an underscore, the body equals `w`. -/
lemma sufUnderscoreSame {q w : List Char} (hq : '_' ∉ q) (hw : '_' ∉ w)
    (t : List Char) (h : isSuf ('_' :: q) (t ++ '_' :: w) = true) : q = w := by
  rw [isSuf, List.reverse_append,
    show ('_' :: q).reverse = q.reverse ++ ['_'] by simp,
    show ('_' :: w).reverse = w.reverse ++ ['_'] by simp,
    List.append_assoc] at h
  rcases preSplit w.reverse (q.reverse ++ ['_']) (['_'] ++ t.reverse) h
    with hin | ⟨hsp, hdr⟩
  · have : '_' ∈ w.reverse := memOfPre hin (by simp)
    exact absurd (List.mem_reverse.mp this) hw
  · rcases Nat.lt_trichotomy w.reverse.length q.reverse.length with hlt | heq | hgt
    · rw [List.drop_append_of_le_length (Nat.le_of_lt hlt)] at hdr
      cases hyd : q.reverse.drop w.reverse.length with
      | nil =>
        have h5 := congrArg List.length hyd
        rw [List.length_drop, List.length_nil] at h5
        omega
      | cons y ys =>
        have hy : y ∈ q :=
          List.mem_reverse.mp
            (List.drop_subset w.reverse.length q.reverse (hyd ▸ List.mem_cons_self y ys))
        have hyne : ¬(y = '_') := fun hcontra => hq (hcontra ▸ hy)
        rw [hyd, List.cons_append, List.singleton_append, preConsNe hyne] at hdr
        exact absurd hdr (by simp)
    · obtain ⟨u, hu⟩ := (isPre_iff w.reverse (q.reverse ++ ['_'])).mp hsp
      exact List.reverse_injective (List.append_inj hu heq.symm).1
    · have h7 : w.reverse = q.reverse ++ ['_'] :=
        isPre_of_long hsp (by rw [List.length_append, List.length_singleton]; omega)
      have h8 : '_' ∈ w.reverse := by rw [h7]; simp
      exact absurd (List.mem_reverse.mp h8) hw

/-- Appending an underscore-led tail never creates an archival-pattern match. -/
lemma archAppend {t : List Char} (r : List Char) (h : archivalMatch t = false) :
    archivalMatch (t ++ '_' :: r) = false := by
  have hud : ('_' : Char).isDigit = false := by decide
  have hd : decide (('_' : Char) = '-') = false := by decide
  rcases t with _ | ⟨a, _ | ⟨b, _ | ⟨c, _ | ⟨d, _ | ⟨x, _ | ⟨y, t2⟩⟩⟩⟩⟩⟩
  · rcases r with _ | ⟨r1, _ | ⟨r2, _ | ⟨r3, r4⟩⟩⟩ <;>
      simp [archivalMatch, hud]
  · rcases r with _ | ⟨r1, _ | ⟨r2, r3⟩⟩ <;>
      simp [archivalMatch, hud]
  · rcases r with _ | ⟨r1, r2⟩ <;>
      simp [archivalMatch, hud]
  · simp [archivalMatch, hud]
  · rcases r with _ | ⟨r1, r2⟩ <;>
      simp only [List.cons_append, List.nil_append, archivalMatch, archTail, hd, hud,
        Bool.and_false, Bool.false_and, Bool.or_false] at h ⊢
  · simp only [List.cons_append, List.nil_append, archivalMatch, archTail, hd, hud,
      Bool.and_false, Bool.false_and, Bool.or_false] at h ⊢
    exact h
  · simp only [List.cons_append, archivalMatch, archTail] at h ⊢
    exact h

/-- The song-name ending scan strips exactly the appended `_<emotion>` ending
when no earlier listed token can match. -/
lemma songScanEq (title w : List Char) (hw : '_' ∉ w) :
    ∀ es : List String, (∀ s ∈ es, '_' ∉ s.toList) → (∃ s ∈ es, s.toList = w) →
      songSuffixScan es (title ++ '_' :: w) = title := by
  intro es
  induction es with
  | nil => intro _ hmem; simp at hmem
  | cons e0 rest ih =>
    intro hns hmem
    by_cases he : e0.toList = w
    · rw [songSuffixScan, he, if_pos (isSuf_append_self ('_' :: w) title)]
      exact takeLen title ('_' :: w)
    · have hskip : isSuf ('_' :: e0.toList) (title ++ '_' :: w) = false := by
        cases hc : isSuf ('_' :: e0.toList) (title ++ '_' :: w) with
        | false => rfl
        | true =>
          exact absurd
            (sufUnderscoreSame (hns e0 (List.mem_cons_self e0 rest)) hw title hc) he
      rw [songSuffixScan, hskip]
      simp only [Bool.false_eq_true, if_false]
      refine ih (fun s hs => hns s (List.mem_cons_of_mem e0 hs)) ?_
      obtain ⟨s, hs, hseq⟩ := hmem
      rcases List.mem_cons.mp hs with rfl | hs2
      · exact absurd hseq he
      · exact ⟨s, hs2, hseq⟩

/-- The emotion scan on `title ++ _<emotion>` returns exactly the appended
emotion when the title is free of emotion markers. -/
lemma emoScanEq (title w : List Char) (hw : '_' ∉ w) :
    ∀ es : List String,
      (∀ s ∈ es, '_' ∉ s.toList) →
      (∀ s ∈ es, containsSub ('_' :: s.toList) title = false) →
      (∀ s ∈ es, s.toList ≠ w → isPre s.toList w = false) →
      (∀ s ∈ es, s.toList = w → s ≠ "original1") →
      (∃ s ∈ es, s.toList = w) →
      emotionScan es (title ++ '_' :: w) = some (String.mk w) := by
  intro es
  induction es with
  | nil => intro _ _ _ _ hmem; simp at hmem
  | cons e0 rest ih =>
    intro hns hsub hpre hno1 hmem
    by_cases he : e0.toList = w
    · have hne1 : e0 ≠ "original1" := hno1 e0 (List.mem_cons_self e0 rest) he
      have hhit : containsSub ('_' :: e0.toList) (title ++ '_' :: w) = true := by
        rw [he]; exact subSelfAppend ('_' :: w) title
      rw [emotionScan, if_neg hne1, hhit]
      simp only [if_true]
      rw [show e0 = String.mk e0.toList from rfl, he]
    · have hskip : containsSub ('_' :: e0.toList) (title ++ '_' :: w) = false :=
        subSpan (hns e0 (List.mem_cons_self e0 rest)) hw
          (hpre e0 (List.mem_cons_self e0 rest) he) title
          (hsub e0 (List.mem_cons_self e0 rest))
      have hrest : ∃ s ∈ rest, s.toList = w := by
        obtain ⟨s, hs, hseq⟩ := hmem
        rcases List.mem_cons.mp hs with rfl | hs2
        · exact absurd hseq he
        · exact ⟨s, hs2, hseq⟩
      rw [emotionScan]
      by_cases h1 : e0 = "original1"
      · rw [if_pos h1, hskip]
        simp only [Bool.false_eq_true, if_false]
        exact ih (fun s hs => hns s (List.mem_cons_of_mem e0 hs))
          (fun s hs => hsub s (List.mem_cons_of_mem e0 hs))
          (fun s hs => hpre s (List.mem_cons_of_mem e0 hs))
          (fun s hs => hno1 s (List.mem_cons_of_mem e0 hs)) hrest
      · rw [if_neg h1, hskip]
        simp only [Bool.false_eq_true, if_false]
        exact ih (fun s hs => hns s (List.mem_cons_of_mem e0 hs))
          (fun s hs => hsub s (List.mem_cons_of_mem e0 hs))
          (fun s hs => hpre s (List.mem_cons_of_mem e0 hs))
          (fun s hs => hno1 s (List.mem_cons_of_mem e0 hs)) hrest

/-- Any emotion the scan produces is listed (and never the raw token
`original1`), or is the normalized `original`. -/
lemma emoScanRange : ∀ (es : List String) (name : List Char) (r : String),
    emotionScan es name = some r → (r ∈ es ∧ r ≠ "original1") ∨ r = "original" := by
  intro es
  induction es with
  | nil => intro name r h; simp [emotionScan] at h
  | cons e0 rest ih =>
    intro name r h
    rw [emotionScan] at h
    by_cases h1 : e0 = "original1"
    · rw [if_pos h1] at h
      cases hc : containsSub ('_' :: e0.toList) name with
      | true =>
        rw [hc] at h
        simp only [if_true] at h
        exact Or.inr (Option.some_injective String h).symm
      | false =>
        rw [hc] at h
        simp only [Bool.false_eq_true, if_false] at h
        rcases ih name r h with ⟨hm, hn⟩ | ho
        · exact Or.inl ⟨List.mem_cons_of_mem e0 hm, hn⟩
        · exact Or.inr ho
    · rw [if_neg h1] at h
      cases hc : containsSub ('_' :: e0.toList) name with
      | true =>
        rw [hc] at h
        simp only [if_true] at h
        have hre : r = e0 := (Option.some_injective String h).symm
        exact Or.inl ⟨hre ▸ List.mem_cons_self e0 rest, fun hcon => h1 (hre ▸ hcon)⟩
      | false =>
        rw [hc] at h
        simp only [Bool.false_eq_true, if_false] at h
        rcases ih name r h with ⟨hm, hn⟩ | ho
        · exact Or.inl ⟨List.mem_cons_of_mem e0 hm, hn⟩
        · exact Or.inr ho

/-- Claim C1: for every filename whose stem matches the archival pattern
(4-5 leading digits then a hyphen), the classifier returns the whole stem
unmodified as song name and no emotion, regardless of embedded
emotion-like or processing-marker substrings. -/
theorem C1_archival_classification (f : String)
    (h : archivalMatch (pyStem f.toList) = true) :
    extract_song_name f = String.mk (pyStem f.toList) ∧ extract_emotion f = none := by
  have h2 : archivalMatch (pyStem f.data) = true := h
  constructor
  · simp [extract_song_name, songFromStem, h2]
  · simp [extract_emotion, h2]

/-- Classification of a stem of the form `title ++ _<emotion>` when the title
is free of archival, processing and emotion markers. -/
lemma classifyApp (f : String) (title : List Char) (e : String)
    (hstem : pyStem f.toList = title ++ '_' :: e.toList)
    (hmem : e ∈ EMOTIONS)
    (hw : '_' ∉ e.toList)
    (harch : archivalMatch title = false)
    (htorr : containsSub "_torr_".toList title = false)
    (htorrs : isSuf "_torr".toList title = false)
    (hclean : containsSub "_cleaned".toList title = false)
    (hcleanp : isPre "cleaned".toList e.toList = false)
    (hemo : ∀ s ∈ EMOTIONS, containsSub ('_' :: s.toList) title = false)
    (hes : ∀ s ∈ EMOTIONS, '_' ∉ s.toList)
    (hpre : ∀ s ∈ EMOTIONS, s.toList ≠ e.toList → isPre s.toList e.toList = false)
    (hno1 : ∀ s ∈ EMOTIONS, s.toList = e.toList → s ≠ "original1") :
    extract_song_name f = String.mk title ∧ extract_emotion f = some e := by
  have harch2 : archivalMatch (title ++ '_' :: e.toList) = false := archAppend e.toList harch
  have htorr2 : containsSub "_torr_".toList (title ++ '_' :: e.toList) = false :=
    subSpanTorr hw title htorr htorrs
  have hclean2 : containsSub "_cleaned".toList (title ++ '_' :: e.toList) = false := by
    have h9 : "_cleaned".toList = '_' :: "cleaned".toList := rfl
    rw [h9] at hclean ⊢
    exact subSpan (by decide) hw hcleanp title hclean
  constructor
  · show String.mk (songFromStem (pyStem f.toList)) = String.mk title
    rw [hstem, songFromStem, harch2, htorr2, hclean2]
    simp only [Bool.false_eq_true, if_false, Bool.or_self]
    rw [songScanEq title e.toList hw EMOTIONS hes ⟨e, hmem, rfl⟩]
  · show (if archivalMatch (pyStem f.toList) = true then none
        else emotionScan EMOTIONS (pyStem f.toList)) = some e
    rw [hstem, harch2]
    simp only [Bool.false_eq_true, if_false]
    have h10 := emoScanEq title e.toList hw EMOTIONS hes hemo hpre hno1 ⟨e, hmem, rfl⟩
    rw [show String.mk e.toList = e from rfl] at h10
    exact h10

/-- Claim C2 counterexample: the filename `Foo_angry_sad` has the form
`<Title>_<emotion>` with title `Foo_angry` free of `_torr_`, `_cleaned` and
leading digits, yet the classifier reports emotion `angry`, not the suffix
emotion `sad`, because the emotion scan matches listed emotions by substring
in list order. -/
theorem C2_counterexample :
    ("Foo_angry_sad".toList = "Foo_angry".toList ++ '_' :: "sad".toList) ∧
    "sad" ∈ ["angry", "happy", "sad", "tender", "original"] ∧
    containsSub "_torr_".toList "Foo_angry".toList = false ∧
    containsSub "_cleaned".toList "Foo_angry".toList = false ∧
    archivalMatch "Foo_angry".toList = false ∧
    extract_song_name "Foo_angry_sad" = "Foo_angry" ∧
    ¬(extract_emotion "Foo_angry_sad" = some "sad") ∧
    extract_emotion "Foo_angry_sad" = some "angry" := by
  decide

/-- Claim C2 (amended): for a filename whose stem is `<Title>_<emotion>` with
the emotion in the five-element set, the classifier returns `song_name =
Title` and that emotion, provided the title additionally contains no
`_<e>` substring for any listed emotion token, does not end with `_torr`,
and carries no `_torr_`/`_cleaned` marker or leading digit-hyphen pattern. -/
theorem C2_amended (f : String) (title : List Char) (e : String)
    (he : e ∈ ["angry", "happy", "sad", "tender", "original"])
    (hstem : pyStem f.toList = title ++ '_' :: e.toList)
    (harch : archivalMatch title = false)
    (htorr : containsSub "_torr_".toList title = false)
    (htorrs : isSuf "_torr".toList title = false)
    (hclean : containsSub "_cleaned".toList title = false)
    (hemo : ∀ s ∈ EMOTIONS, containsSub ('_' :: s.toList) title = false) :
    extract_song_name f = String.mk title ∧ extract_emotion f = some e := by
  have he2 : e = "angry" ∨ e = "happy" ∨ e = "sad" ∨ e = "tender" ∨ e = "original" := by
    simpa using he
  rcases he2 with rfl | rfl | rfl | rfl | rfl <;>
    exact classifyApp f title _ hstem (by decide) (by decide) harch htorr
      htorrs hclean (by decide) hemo (by decide) (by decide) (by decide)

theorem C2_amended_witness :
    (pyStem "Fuglesangen_angry.wav".toList =
        "Fuglesangen".toList ++ '_' :: "angry".toList) ∧
    (extract_song_name "Fuglesangen_angry.wav" = String.mk "Fuglesangen".toList ∧
      extract_emotion "Fuglesangen_angry.wav" = some "angry") :=
  ⟨by decide, C2_amended "Fuglesangen_angry.wav" "Fuglesangen".toList "angry" (by decide)
    (by decide) (by decide) (by decide) (by decide) (by decide) (by decide)⟩

/-- The emotion result of `extract_emotion` is always none or one of the five
normalized emotions. -/
lemma emoRangeFull (f : String) :
    extract_emotion f = none ∨
      ∃ s ∈ ["angry", "happy", "sad", "tender", "original"],
        extract_emotion f = some s := by
  cases harch : archivalMatch (pyStem f.toList) with
  | true =>
    exact Or.inl (by show (if archivalMatch (pyStem f.toList) = true then none
      else emotionScan EMOTIONS (pyStem f.toList)) = none; rw [harch]; simp)
  | false =>
    have hval : extract_emotion f = emotionScan EMOTIONS (pyStem f.toList) := by
      show (if archivalMatch (pyStem f.toList) = true then none
        else emotionScan EMOTIONS (pyStem f.toList)) = _
      rw [harch]
      simp
    cases hscan : emotionScan EMOTIONS (pyStem f.toList) with
    | none => exact Or.inl (by rw [hval, hscan])
    | some r =>
      refine Or.inr ⟨r, ?_, by rw [hval, hscan]⟩
      rcases emoScanRange EMOTIONS (pyStem f.toList) r hscan with ⟨hmem, hne⟩ | ho
      · have : r = "angry" ∨ r = "happy" ∨ r = "sad" ∨ r = "tender" ∨
            r = "original" ∨ r = "original1" := by simpa [EMOTIONS] using hmem
        rcases this with rfl | rfl | rfl | rfl | rfl | rfl <;> simp at hne ⊢
      · rw [ho]; simp

/-- Claim C5 counterexample: `A_angry_original1` is non-archival and contains
`_original1`, yet the classifier reports `angry`, because the earlier-listed
emotion substring wins. -/
theorem C5_counterexample :
    archivalMatch (pyStem "A_angry_original1".toList) = false ∧
    containsSub "_original1".toList (pyStem "A_angry_original1".toList) = true ∧
    extract_emotion "A_angry_original1" = some "angry" ∧
    ¬(extract_emotion "A_angry_original1" = some "original") := by
  decide

/-- Claim C5 (amended): a non-archival filename containing `_original1` whose
stem contains no earlier-listed emotion substring (`_angry`, `_happy`, `_sad`,
`_tender`) yields emotion `original`; and for every filename whatsoever the
emotion is none or in the closed five-element set, never the raw token
`original1`. -/
theorem C5_amended :
    (∀ f : String,
        archivalMatch (pyStem f.toList) = false →
        containsSub "_original1".toList (pyStem f.toList) = true →
        (∀ s ∈ ["angry", "happy", "sad", "tender"],
          containsSub ('_' :: s.toList) (pyStem f.toList) = false) →
        extract_emotion f = some "original") ∧
    (∀ f : String, extract_emotion f = none ∨
        ∃ s ∈ ["angry", "happy", "sad", "tender", "original"],
          extract_emotion f = some s) ∧
    (∀ f : String, extract_emotion f ≠ some "original1") := by
  refine ⟨?_, fun f => emoRangeFull f, ?_⟩
  · intro f h1 h2 h3
    have horig : containsSub "_original".toList (pyStem f.toList) = true :=
      subOfPreSub (by decide) h2
    show (if archivalMatch (pyStem f.toList) = true then none
      else emotionScan EMOTIONS (pyStem f.toList)) = some "original"
    rw [h1]
    simp only [Bool.false_eq_true, if_false]
    show emotionScan ["angry", "happy", "sad", "tender", "original", "original1"]
      (pyStem f.toList) = some "original"
    rw [emotionScan, if_neg (by decide : ¬("angry" : String) = "original1"),
      h3 "angry" (by simp)]
    simp only [Bool.false_eq_true, if_false]
    rw [emotionScan, if_neg (by decide : ¬("happy" : String) = "original1"),
      h3 "happy" (by simp)]
    simp only [Bool.false_eq_true, if_false]
    rw [emotionScan, if_neg (by decide : ¬("sad" : String) = "original1"),
      h3 "sad" (by simp)]
    simp only [Bool.false_eq_true, if_false]
    rw [emotionScan, if_neg (by decide : ¬("tender" : String) = "original1"),
      h3 "tender" (by simp)]
    simp only [Bool.false_eq_true, if_false]
    rw [emotionScan, if_neg (by decide : ¬("original" : String) = "original1"),
      show ('_' :: "original".toList) = "_original".toList from rfl, horig]
    simp
  · intro f hcon
    rcases emoRangeFull f with hn | ⟨s, hs, hev⟩
    · rw [hn] at hcon; exact absurd hcon (by simp)
    · rw [hev] at hcon
      have : s = "original1" := Option.some_injective String hcon
      subst this
      simp at hs

theorem C5_amended_witness :
    (archivalMatch (pyStem "Song_original1.wav".toList) = false ∧
      containsSub "_original1".toList (pyStem "Song_original1.wav".toList) = true) ∧
    extract_emotion "Song_original1.wav" = some "original" :=
  ⟨⟨by decide, by decide⟩,
    C5_amended.1 "Song_original1.wav" (by decide) (by decide) (by decide)⟩

theorem C1_archival_classification_witness :
    archivalMatch (pyStem "00106-Foo_sad_torr_x_cleaned.wav".toList) = true ∧
    (extract_song_name "00106-Foo_sad_torr_x_cleaned.wav" =
        String.mk (pyStem "00106-Foo_sad_torr_x_cleaned.wav".toList) ∧
      extract_emotion "00106-Foo_sad_torr_x_cleaned.wav" = none) :=
  ⟨by decide, C1_archival_classification "00106-Foo_sad_torr_x_cleaned.wav" (by decide)⟩

lemma strDataAppend (a b : String) : (a ++ b).data = a.data ++ b.data := by
  cases a; cases b; rfl

/-- Distinct stems give distinct id input strings. -/
lemma idString_inj : Function.Injective idString := by
  intro s t h
  have hd := congrArg String.data h
  simp only [idString, audioRel, midiRel, strDataAppend, List.append_assoc] at hd
  have hd2 := List.append_cancel_left hd
  have hlen : s.data.length = t.data.length := by
    have h5 := congrArg List.length hd2
    simp only [List.length_append] at h5
    omega
  have hd3 := (List.append_inj hd2 hlen).1
  cases s; cases t
  exact congrArg String.mk hd3

lemma build_manifest_spec (hash fileHash : String → String) (midiExists : String → Bool) :
    ∀ stems : List String,
      (build_manifest hash fileHash midiExists stems).1 =
        (stems.filter (fun s => midiExists s)).map (mkRow hash fileHash) ∧
      (build_manifest hash fileHash midiExists stems).2 =
        (stems.filter (fun s => !midiExists s)).map (fun s => s ++ ".wav") := by
  intro stems
  induction stems with
  | nil => exact ⟨rfl, rfl⟩
  | cons s rest ih =>
    cases hm : midiExists s with
    | true => simp [build_manifest, hm, List.filter_cons, ih.1, ih.2]
    | false => simp [build_manifest, hm, List.filter_cons, ih.1, ih.2]

/-- Claim C3: the manifest builder emits exactly one row per audio stem with a
same-stem MIDI counterpart (in listing order), reports exactly the unpaired
audio files as warnings, and — the id inputs being pairwise distinct — never
emits two rows with the same id as long as the digest function is
collision-free on them. -/
theorem C3_manifest_builder (hash fileHash : String → String)
    (midiExists : String → Bool) (stems : List String)
    (hnd : stems.Nodup) (hinj : Function.Injective hash) :
    (build_manifest hash fileHash midiExists stems).1 =
        (stems.filter (fun s => midiExists s)).map (mkRow hash fileHash) ∧
    (build_manifest hash fileHash midiExists stems).2 =
        (stems.filter (fun s => !midiExists s)).map (fun s => s ++ ".wav") ∧
    ((stems.filter (fun s => midiExists s)).map idString).Nodup ∧
    ((build_manifest hash fileHash midiExists stems).1.map ManifestRow.id).Nodup := by
  obtain ⟨h1, h2⟩ := build_manifest_spec hash fileHash midiExists stems
  have hfn : (stems.filter (fun s => midiExists s)).Nodup := hnd.filter _
  refine ⟨h1, h2, hfn.map idString_inj, ?_⟩
  rw [h1, List.map_map]
  have hcomp : ManifestRow.id ∘ mkRow hash fileHash =
      fun s => hash (idString s) := rfl
  rw [hcomp]
  exact hfn.map (fun a b hab => idString_inj (hinj hab))

theorem C3_manifest_builder_witness :
    (["A", "B"] : List String).Nodup ∧
    ((build_manifest (fun s => s) (fun _ => "d") (fun s => s == "A") ["A", "B"]).1 =
        ((["A", "B"].filter (fun s => s == "A")).map
          (mkRow (fun s => s) (fun _ => "d"))) ∧
      (build_manifest (fun s => s) (fun _ => "d") (fun s => s == "A") ["A", "B"]).2 =
        ((["A", "B"].filter (fun s => !(s == "A"))).map (fun s => s ++ ".wav")) ∧
      ((["A", "B"].filter (fun s => s == "A")).map idString).Nodup ∧
      ((build_manifest (fun s => s) (fun _ => "d")
          (fun s => s == "A") ["A", "B"]).1.map ManifestRow.id).Nodup) :=
  ⟨by decide,
    C3_manifest_builder (fun s => s) (fun _ => "d") (fun s => s == "A") ["A", "B"]
      (by decide) (fun a b hab => hab)⟩

lemma checkFile_missing (ex : String → Bool) (dg : String → String)
    (p stored : String) (st : VState) :
    (checkFile ex dg p stored st).missing =
      st.missing ++ (if ex p then [] else [p]) := by
  rw [checkFile]
  split_ifs with h1 h2 <;> simp [h1]

lemma checkFile_mismatches (ex : String → Bool) (dg : String → String)
    (p stored : String) (st : VState) :
    (checkFile ex dg p stored st).mismatches =
      st.mismatches ++
        (if ex p ∧ dg p ≠ stored then [⟨p, stored, dg p⟩] else []) := by
  rw [checkFile]
  split_ifs with h1 h2 <;> simp_all

lemma checkFile_dups (ex : String → Bool) (dg : String → String)
    (p stored : String) (st : VState) :
    (checkFile ex dg p stored st).dups = st.dups := by
  rw [checkFile]
  split_ifs <;> rfl

lemma checkFile_seen (ex : String → Bool) (dg : String → String)
    (p stored : String) (st : VState) :
    (checkFile ex dg p stored st).seen = st.seen := by
  rw [checkFile]
  split_ifs <;> rfl

lemma checkFile_songs (ex : String → Bool) (dg : String → String)
    (p stored : String) (st : VState) :
    (checkFile ex dg p stored st).songs = st.songs := by
  rw [checkFile]
  split_ifs <;> rfl

lemma checkFile_songsWith (ex : String → Bool) (dg : String → String)
    (p stored : String) (st : VState) :
    (checkFile ex dg p stored st).songsWith = st.songsWith := by
  rw [checkFile]
  split_ifs <;> rfl

lemma checkFile_songsWithout (ex : String → Bool) (dg : String → String)
    (p stored : String) (st : VState) :
    (checkFile ex dg p stored st).songsWithout = st.songsWithout := by
  rw [checkFile]
  split_ifs <;> rfl

lemma vStep_missing (ex : String → Bool) (dg : String → String) (st : VState) (r : VRow) :
    (vStep ex dg st r).missing = st.missing ++ rowMissing ex r := by
  by_cases hdup : r.id ∈ st.seen <;>
    simp [vStep, checkFile_missing, rowMissing, hdup, List.append_assoc]

lemma vStep_mismatches (ex : String → Bool) (dg : String → String) (st : VState) (r : VRow) :
    (vStep ex dg st r).mismatches = st.mismatches ++ rowMismatches ex dg r := by
  by_cases hdup : r.id ∈ st.seen <;>
    simp [vStep, checkFile_mismatches, rowMismatches, hdup, List.append_assoc]

lemma vStep_dups (ex : String → Bool) (dg : String → String) (st : VState) (r : VRow) :
    (vStep ex dg st r).dups =
      st.dups ++ (if r.id ∈ st.seen then [r.id] else []) := by
  by_cases hdup : r.id ∈ st.seen <;>
    simp [vStep, checkFile_dups, hdup]

lemma vStep_songs (ex : String → Bool) (dg : String → String) (st : VState) (r : VRow) :
    (vStep ex dg st r).songs = addOnce st.songs r.song_name := by
  by_cases hdup : r.id ∈ st.seen <;>
    simp [vStep, checkFile_songs, hdup]

lemma vStep_songsWith (ex : String → Bool) (dg : String → String) (st : VState) (r : VRow) :
    (vStep ex dg st r).songsWith =
      if r.has_emotional_variations = "True" then addOnce st.songsWith r.song_name
      else st.songsWith := by
  by_cases hdup : r.id ∈ st.seen <;>
    simp [vStep, checkFile_songsWith, hdup]

lemma vStep_songsWithout (ex : String → Bool) (dg : String → String) (st : VState) (r : VRow) :
    (vStep ex dg st r).songsWithout =
      if r.has_emotional_variations = "True" then st.songsWithout
      else addOnce st.songsWithout r.song_name := by
  by_cases hdup : r.id ∈ st.seen <;>
    simp [vStep, checkFile_songsWithout, hdup]

/-- The running relation between the fail status and the three violation
lists. -/
def VInv (st : VState) : Prop :=
  st.status = "fail" ↔ (st.missing ≠ [] ∨ st.mismatches ≠ [] ∨ st.dups ≠ [])

lemma checkFile_inv (ex : String → Bool) (dg : String → String)
    (p stored : String) (st : VState) (h : VInv st) :
    VInv (checkFile ex dg p stored st) := by
  rw [VInv] at h ⊢
  rw [checkFile]
  split_ifs with h1 h2 <;> simp_all

lemma vStep_inv (ex : String → Bool) (dg : String → String) (st : VState) (r : VRow)
    (h : VInv st) : VInv (vStep ex dg st r) := by
  apply checkFile_inv
  apply checkFile_inv
  by_cases hdup : r.id ∈ st.seen
  · rw [VInv] at h ⊢
    simp [hdup]
  · rw [VInv] at h ⊢
    simpa [hdup] using h

lemma validate_fold_inv (ex : String → Bool) (dg : String → String) :
    ∀ (rows : List VRow) (st : VState), VInv st →
      VInv (rows.foldl (vStep ex dg) st) := by
  intro rows
  induction rows with
  | nil => intro st h; exact h
  | cons r rest ih => intro st h; exact ih _ (vStep_inv ex dg st r h)

lemma validate_fold_missing (ex : String → Bool) (dg : String → String) :
    ∀ (rows : List VRow) (st : VState),
      (rows.foldl (vStep ex dg) st).missing =
        st.missing ++ (rows.map (rowMissing ex)).flatten := by
  intro rows
  induction rows with
  | nil => intro st; simp
  | cons r rest ih =>
    intro st
    rw [List.foldl_cons, ih, vStep_missing, List.map_cons, List.flatten_cons,
      List.append_assoc]

lemma validate_fold_mismatches (ex : String → Bool) (dg : String → String) :
    ∀ (rows : List VRow) (st : VState),
      (rows.foldl (vStep ex dg) st).mismatches =
        st.mismatches ++ (rows.map (rowMismatches ex dg)).flatten := by
  intro rows
  induction rows with
  | nil => intro st; simp
  | cons r rest ih =>
    intro st
    rw [List.foldl_cons, ih, vStep_mismatches, List.map_cons, List.flatten_cons,
      List.append_assoc]

/-- Claim C4: the validator records a checksum mismatch exactly for referenced
files that exist with a differing live digest, records a missing file exactly
for referenced paths that do not exist, and its status is `fail` exactly when
one of the three violation lists is non-empty. -/
theorem C4_validator (ex : String → Bool) (dg : String → String) (rows : List VRow) :
    (∀ m : Mismatch, m ∈ (validate ex dg rows).mismatches ↔
      ∃ r ∈ rows,
        (ex r.audio_relpath = true ∧ dg r.audio_relpath ≠ r.audio_sha256 ∧
          m = ⟨r.audio_relpath, r.audio_sha256, dg r.audio_relpath⟩) ∨
        (ex r.midi_relpath = true ∧ dg r.midi_relpath ≠ r.midi_sha256 ∧
          m = ⟨r.midi_relpath, r.midi_sha256, dg r.midi_relpath⟩)) ∧
    (∀ p : String, p ∈ (validate ex dg rows).missing ↔
      ∃ r ∈ rows,
        (ex r.audio_relpath = false ∧ p = r.audio_relpath) ∨
        (ex r.midi_relpath = false ∧ p = r.midi_relpath)) ∧
    ((validate ex dg rows).status = "fail" ↔
      ((validate ex dg rows).missing ≠ [] ∨ (validate ex dg rows).mismatches ≠ [] ∨
        (validate ex dg rows).dups ≠ [])) := by
  refine ⟨?_, ?_, ?_⟩
  · intro m
    rw [validate, validate_fold_mismatches]
    simp only [initVState, List.nil_append, List.mem_flatten, List.mem_map]
    constructor
    · rintro ⟨l, ⟨r, hr, rfl⟩, hm⟩
      rw [rowMismatches] at hm
      refine ⟨r, hr, ?_⟩
      rcases List.mem_append.mp hm with hm1 | hm1 <;> split_ifs at hm1 with hc <;>
        simp at hm1
      · subst hm1; exact Or.inl ⟨hc.1, hc.2, rfl⟩
      · subst hm1; exact Or.inr ⟨hc.1, hc.2, rfl⟩
    · rintro ⟨r, hr, ⟨hex, hne, rfl⟩ | ⟨hex, hne, rfl⟩⟩ <;>
        refine ⟨rowMismatches ex dg r, ⟨r, hr, rfl⟩, ?_⟩ <;>
        rw [rowMismatches] <;>
        simp [hex, hne]
  · intro p
    rw [validate, validate_fold_missing]
    simp only [initVState, List.nil_append, List.mem_flatten, List.mem_map]
    constructor
    · rintro ⟨l, ⟨r, hr, rfl⟩, hm⟩
      rw [rowMissing] at hm
      refine ⟨r, hr, ?_⟩
      rcases List.mem_append.mp hm with hm1 | hm1 <;> split_ifs at hm1 with hc <;>
        simp at hm1
      · subst hm1; exact Or.inl ⟨by simpa using hc, rfl⟩
      · subst hm1; exact Or.inr ⟨by simpa using hc, rfl⟩
    · rintro ⟨r, hr, ⟨hex, rfl⟩ | ⟨hex, rfl⟩⟩ <;>
        refine ⟨rowMissing ex r, ⟨r, hr, rfl⟩, ?_⟩ <;>
        rw [rowMissing] <;>
        simp [hex]
  · exact validate_fold_inv ex dg rows initVState (by rw [VInv]; simp [initVState])

lemma addOnce_mem {s : List String} {x y : String} :
    y ∈ addOnce s x ↔ y ∈ s ∨ y = x := by
  rw [addOnce]
  split_ifs with h
  · constructor
    · exact fun hy => Or.inl hy
    · rintro (hy | rfl)
      · exact hy
      · exact h
  · simp

lemma addOnce_nodup {s : List String} {x : String} (h : s.Nodup) :
    (addOnce s x).Nodup := by
  rw [addOnce]
  split_ifs with hx
  · exact h
  · rw [List.nodup_append]
    refine ⟨h, by simp, ?_⟩
    intro a ha hax
    simp at hax
    subst hax
    exact hx ha

lemma fold_songsWith_mem (ex : String → Bool) (dg : String → String) :
    ∀ (rows : List VRow) (st : VState) (x : String),
      x ∈ (rows.foldl (vStep ex dg) st).songsWith ↔
        x ∈ st.songsWith ∨
          ∃ r ∈ rows, r.song_name = x ∧ r.has_emotional_variations = "True" := by
  intro rows
  induction rows with
  | nil => intro st x; simp
  | cons r rest ih =>
    intro st x
    rw [List.foldl_cons, ih, List.exists_mem_cons_iff]
    by_cases hv : r.has_emotional_variations = "True"
    · rw [vStep_songsWith, if_pos hv, addOnce_mem]
      constructor
      · rintro ((hA | hB) | hC)
        · exact Or.inl hA
        · exact Or.inr (Or.inl ⟨hB.symm, hv⟩)
        · exact Or.inr (Or.inr hC)
      · rintro (hA | (⟨hB, _⟩ | hC))
        · exact Or.inl (Or.inl hA)
        · exact Or.inl (Or.inr hB.symm)
        · exact Or.inr hC
    · rw [vStep_songsWith, if_neg hv]
      constructor
      · rintro (hA | hC)
        · exact Or.inl hA
        · exact Or.inr (Or.inr hC)
      · rintro (hA | (⟨hB, hv2⟩ | hC))
        · exact Or.inl hA
        · exact absurd hv2 hv
        · exact Or.inr hC

lemma fold_songsWithout_mem (ex : String → Bool) (dg : String → String) :
    ∀ (rows : List VRow) (st : VState) (x : String),
      x ∈ (rows.foldl (vStep ex dg) st).songsWithout ↔
        x ∈ st.songsWithout ∨
          ∃ r ∈ rows, r.song_name = x ∧ r.has_emotional_variations ≠ "True" := by
  intro rows
  induction rows with
  | nil => intro st x; simp
  | cons r rest ih =>
    intro st x
    rw [List.foldl_cons, ih, List.exists_mem_cons_iff]
    by_cases hv : r.has_emotional_variations = "True"
    · rw [vStep_songsWithout, if_pos hv]
      constructor
      · rintro (hA | hC)
        · exact Or.inl hA
        · exact Or.inr (Or.inr hC)
      · rintro (hA | (⟨hB, hv2⟩ | hC))
        · exact Or.inl hA
        · exact absurd hv hv2
        · exact Or.inr hC
    · rw [vStep_songsWithout, if_neg hv, addOnce_mem]
      constructor
      · rintro ((hA | hB) | hC)
        · exact Or.inl hA
        · exact Or.inr (Or.inl ⟨hB.symm, hv⟩)
        · exact Or.inr (Or.inr hC)
      · rintro (hA | (⟨hB, _⟩ | hC))
        · exact Or.inl (Or.inl hA)
        · exact Or.inl (Or.inr hB.symm)
        · exact Or.inr hC

lemma fold_songs_mem (ex : String → Bool) (dg : String → String) :
    ∀ (rows : List VRow) (st : VState) (x : String),
      x ∈ (rows.foldl (vStep ex dg) st).songs ↔
        x ∈ st.songs ∨ ∃ r ∈ rows, r.song_name = x := by
  intro rows
  induction rows with
  | nil => intro st x; simp
  | cons r rest ih =>
    intro st x
    rw [List.foldl_cons, ih, List.exists_mem_cons_iff, vStep_songs, addOnce_mem]
    constructor
    · rintro ((hA | hB) | hC)
      · exact Or.inl hA
      · exact Or.inr (Or.inl hB.symm)
      · exact Or.inr (Or.inr hC)
    · rintro (hA | (hB | hC))
      · exact Or.inl (Or.inl hA)
      · exact Or.inl (Or.inr hB.symm)
      · exact Or.inr hC

lemma validate_songsWith_mem (ex : String → Bool) (dg : String → String)
    (rows : List VRow) (x : String) :
    x ∈ (validate ex dg rows).songsWith ↔
      ∃ r ∈ rows, r.song_name = x ∧ r.has_emotional_variations = "True" := by
  rw [validate, fold_songsWith_mem]
  simp [initVState]

lemma validate_songsWithout_mem (ex : String → Bool) (dg : String → String)
    (rows : List VRow) (x : String) :
    x ∈ (validate ex dg rows).songsWithout ↔
      ∃ r ∈ rows, r.song_name = x ∧ r.has_emotional_variations ≠ "True" := by
  rw [validate, fold_songsWithout_mem]
  simp [initVState]

lemma validate_songs_mem (ex : String → Bool) (dg : String → String)
    (rows : List VRow) (x : String) :
    x ∈ (validate ex dg rows).songs ↔ ∃ r ∈ rows, r.song_name = x := by
  rw [validate, fold_songs_mem]
  simp [initVState]

lemma fold_songsWith_nodup (ex : String → Bool) (dg : String → String) :
    ∀ (rows : List VRow) (st : VState), st.songsWith.Nodup →
      (rows.foldl (vStep ex dg) st).songsWith.Nodup := by
  intro rows
  induction rows with
  | nil => intro st h; exact h
  | cons r rest ih =>
    intro st h
    rw [List.foldl_cons]
    refine ih _ ?_
    rw [vStep_songsWith]
    split_ifs with hv
    · exact addOnce_nodup h
    · exact h

lemma fold_songsWithout_nodup (ex : String → Bool) (dg : String → String) :
    ∀ (rows : List VRow) (st : VState), st.songsWithout.Nodup →
      (rows.foldl (vStep ex dg) st).songsWithout.Nodup := by
  intro rows
  induction rows with
  | nil => intro st h; exact h
  | cons r rest ih =>
    intro st h
    rw [List.foldl_cons]
    refine ih _ ?_
    rw [vStep_songsWithout]
    split_ifs with hv
    · exact h
    · exact addOnce_nodup h

lemma fold_songs_nodup (ex : String → Bool) (dg : String → String) :
    ∀ (rows : List VRow) (st : VState), st.songs.Nodup →
      (rows.foldl (vStep ex dg) st).songs.Nodup := by
  intro rows
  induction rows with
  | nil => intro st h; exact h
  | cons r rest ih =>
    intro st h
    rw [List.foldl_cons]
    exact ih _ (by rw [vStep_songs]; exact addOnce_nodup h)

/-- Two rows for the same song that disagree on the variation column. -/
def C10rows : List VRow :=
  [⟨"id1", "A", "True", "a.wav", "h1", "m.mid", "h2"⟩,
   ⟨"id2", "A", "False", "a2.wav", "h3", "m2.mid", "h4"⟩]

/-- Two rows for the same song that agree on the variation column. -/
def C10rowsConsistent : List VRow :=
  [⟨"id1", "A", "True", "a.wav", "h1", "m.mid", "h2"⟩,
   ⟨"id2", "A", "True", "a2.wav", "h3", "m2.mid", "h4"⟩]

/-- Claim C10: the validator adds a song to `songs_with_variations` or
`songs_without_variations` per row according to that row's column value, so a
song with disagreeing rows lands in both sets and the two counts (2 here) can
exceed `unique_songs` (1 here); when every row of a song carries the same
value, the two sets partition the unique songs and the counts add up. -/
theorem C10_variation_counts :
    (∀ (ex : String → Bool) (dg : String → String) (rows : List VRow) (x : String),
      (x ∈ (validate ex dg rows).songsWith ↔
        ∃ r ∈ rows, r.song_name = x ∧ r.has_emotional_variations = "True") ∧
      (x ∈ (validate ex dg rows).songsWithout ↔
        ∃ r ∈ rows, r.song_name = x ∧ r.has_emotional_variations ≠ "True") ∧
      (x ∈ (validate ex dg rows).songs ↔ ∃ r ∈ rows, r.song_name = x)) ∧
    ((validate (fun _ => true) (fun _ => "") C10rows).songsWith.length +
        (validate (fun _ => true) (fun _ => "") C10rows).songsWithout.length = 2 ∧
      (validate (fun _ => true) (fun _ => "") C10rows).songs.length = 1) ∧
    (∀ (ex : String → Bool) (dg : String → String) (rows : List VRow),
      (∀ r1 ∈ rows, ∀ r2 ∈ rows, r1.song_name = r2.song_name →
        r1.has_emotional_variations = r2.has_emotional_variations) →
      (validate ex dg rows).songsWith.length +
          (validate ex dg rows).songsWithout.length =
        (validate ex dg rows).songs.length) := by
  refine ⟨?_, by decide, ?_⟩
  · intro ex dg rows x
    exact ⟨validate_songsWith_mem ex dg rows x, validate_songsWithout_mem ex dg rows x,
      validate_songs_mem ex dg rows x⟩
  · intro ex dg rows hcons
    have hWnd : (validate ex dg rows).songsWith.Nodup :=
      fold_songsWith_nodup ex dg rows initVState (by simp [initVState])
    have hWOnd : (validate ex dg rows).songsWithout.Nodup :=
      fold_songsWithout_nodup ex dg rows initVState (by simp [initVState])
    have hSnd : (validate ex dg rows).songs.Nodup :=
      fold_songs_nodup ex dg rows initVState (by simp [initVState])
    have hdisj : (validate ex dg rows).songsWith.Disjoint
        (validate ex dg rows).songsWithout := by
      intro a haW haWO
      obtain ⟨r1, hr1, hs1, hv1⟩ := (validate_songsWith_mem ex dg rows a).mp haW
      obtain ⟨r2, hr2, hs2, hv2⟩ := (validate_songsWithout_mem ex dg rows a).mp haWO
      exact hv2 ((hcons r2 hr2 r1 hr1 (hs2.trans hs1.symm)).trans hv1)
    have hperm : List.Perm
        ((validate ex dg rows).songsWith ++ (validate ex dg rows).songsWithout)
        (validate ex dg rows).songs := by
      refine (List.perm_ext_iff_of_nodup
        (List.nodup_append.mpr ⟨hWnd, hWOnd, hdisj⟩) hSnd).mpr ?_
      intro a
      rw [List.mem_append, validate_songsWith_mem, validate_songsWithout_mem,
        validate_songs_mem]
      constructor
      · rintro (⟨r, hr, hs, _⟩ | ⟨r, hr, hs, _⟩) <;> exact ⟨r, hr, hs⟩
      · rintro ⟨r, hr, hs⟩
        by_cases hv : r.has_emotional_variations = "True"
        · exact Or.inl ⟨r, hr, hs, hv⟩
        · exact Or.inr ⟨r, hr, hs, hv⟩
    have hlen := hperm.length_eq
    rw [List.length_append] at hlen
    exact hlen

theorem C10_variation_counts_witness :
    (∀ r1 ∈ C10rowsConsistent, ∀ r2 ∈ C10rowsConsistent,
      r1.song_name = r2.song_name →
      r1.has_emotional_variations = r2.has_emotional_variations) ∧
    (validate (fun _ => true) (fun _ => "") C10rowsConsistent).songsWith.length +
        (validate (fun _ => true) (fun _ => "") C10rowsConsistent).songsWithout.length =
      (validate (fun _ => true) (fun _ => "") C10rowsConsistent).songs.length :=
  ⟨by decide,
    C10_variation_counts.2.2 (fun _ => true) (fun _ => "") C10rowsConsistent (by decide)⟩

lemma dictGet_not_mem {key : String} :
    ∀ (header : List String) (vals : List ℚ), key ∉ header →
      dictGet (pyDict header vals) key = none := by
  intro header
  induction header with
  | nil => intro vals _; rfl
  | cons k hs ih =>
    intro vals h
    cases vals with
    | nil => rfl
    | cons v vs =>
      have hk : ¬(key = k) := fun hc => h (hc ▸ List.mem_cons_self k hs)
      have hr : dictGet (pyDict hs vs) key = none :=
        ih vs (fun hc => h (List.mem_cons_of_mem k hc))
      show dictGet ((k, v) :: pyDict hs vs) key = none
      rw [dictGet, hr, if_neg hk]

lemma noteFromRow_ok (velocity : ℤ) (header : List String) (vals : List ℚ)
    (h1 : (dictGet (pyDict header vals) "onset").isSome = true)
    (h2 : (dictGet (pyDict header vals) "offset").isSome = true)
    (h3 : (dictGet (pyDict header vals) "onpitch").isSome = true) :
    noteFromRow velocity (pyDict header vals) =
      Except.ok (noteOf header velocity vals) := by
  obtain ⟨op, hop⟩ := Option.isSome_iff_exists.mp h3
  obtain ⟨hs, hhs⟩ := Option.isSome_iff_exists.mp h1
  obtain ⟨he, hhe⟩ := Option.isSome_iff_exists.mp h2
  simp [noteFromRow, noteOf, hop, hhs, hhe]

lemma csv_to_midi_ok (header : List String) (velocity : ℤ) :
    ∀ rows : List (List ℚ),
      (∀ vals ∈ rows,
        (dictGet (pyDict header vals) "onset").isSome = true ∧
        (dictGet (pyDict header vals) "offset").isSome = true ∧
        (dictGet (pyDict header vals) "onpitch").isSome = true) →
      csv_to_midi header rows velocity =
        Except.ok (rows.map (noteOf header velocity)) := by
  intro rows
  induction rows with
  | nil => intro _; rfl
  | cons vals rest ih =>
    intro h
    obtain ⟨h1, h2, h3⟩ := h vals (List.mem_cons_self vals rest)
    rw [csv_to_midi, noteFromRow_ok velocity header vals h1 h2 h3,
      ih (fun v hv => h v (List.mem_cons_of_mem vals hv)), List.map_cons]

/-- Claim C6: on an input with all required columns, the converter emits one
note per data row in input order with pitch `round(onpitch)` clamped into
0-127 (in particular 60.25 maps to 60, 60.75 to 61, -5 to 0 and 150 to 127),
and zero data rows produce a valid empty note list. -/
theorem C6_pitch_and_row_count (header : List String) (rows : List (List ℚ))
    (velocity : ℤ)
    (h : ∀ vals ∈ rows,
      (dictGet (pyDict header vals) "onset").isSome = true ∧
      (dictGet (pyDict header vals) "offset").isSome = true ∧
      (dictGet (pyDict header vals) "onpitch").isSome = true) :
    csv_to_midi header rows velocity =
        Except.ok (rows.map (noteOf header velocity)) ∧
    (rows.map (noteOf header velocity)).length = rows.length ∧
    clampPitch (60.25 : ℚ) = 60 ∧ clampPitch (60.75 : ℚ) = 61 ∧
    clampPitch (-5 : ℚ) = 0 ∧ clampPitch (150 : ℚ) = 127 ∧
    csv_to_midi header [] velocity = Except.ok [] := by
  refine ⟨csv_to_midi_ok header velocity rows h, List.length_map rows _,
    ?_, ?_, ?_, ?_, rfl⟩ <;> norm_num [clampPitch, pyRound]

theorem C6_pitch_and_row_count_witness :
    (∀ vals ∈ [[(0 : ℚ), 1, 60.25]],
      (dictGet (pyDict ["onset", "offset", "onpitch"] vals) "onset").isSome = true ∧
      (dictGet (pyDict ["onset", "offset", "onpitch"] vals) "offset").isSome = true ∧
      (dictGet (pyDict ["onset", "offset", "onpitch"] vals) "onpitch").isSome = true) ∧
    (csv_to_midi ["onset", "offset", "onpitch"] [[(0 : ℚ), 1, 60.25]] 100 =
        Except.ok ([[(0 : ℚ), 1, 60.25]].map
          (noteOf ["onset", "offset", "onpitch"] 100)) ∧
      ([[(0 : ℚ), 1, 60.25]].map (noteOf ["onset", "offset", "onpitch"] 100)).length =
        [[(0 : ℚ), 1, 60.25]].length ∧
      clampPitch (60.25 : ℚ) = 60 ∧ clampPitch (60.75 : ℚ) = 61 ∧
      clampPitch (-5 : ℚ) = 0 ∧ clampPitch (150 : ℚ) = 127 ∧
      csv_to_midi ["onset", "offset", "onpitch"] [] 100 = Except.ok []) :=
  ⟨by decide,
    C6_pitch_and_row_count ["onset", "offset", "onpitch"] [[(0 : ℚ), 1, 60.25]] 100
      (by decide)⟩

/-- Claim C7 counterexample: a CSV whose header lacks `onpitch` but which has
zero data rows converts successfully and writes an output file with zero
notes, instead of failing with a missing-field error. -/
theorem C7_counterexample :
    ("onpitch" ∉ (["onset", "offset"] : List String)) ∧
    csv_to_midi ["onset", "offset"] [] 100 = Except.ok [] :=
  ⟨by decide, rfl⟩

/-- Claim C7 (amended): on an input missing any of the three required columns
and containing at least one data row, the conversion fails with a
missing-field error, so no output file is written. -/
theorem C7_missing_column (header : List String) (rows : List (List ℚ))
    (velocity : ℤ)
    (hmiss : "onset" ∉ header ∨ "offset" ∉ header ∨ "onpitch" ∉ header)
    (hne : rows ≠ []) :
    ∃ e, csv_to_midi header rows velocity = Except.error e := by
  cases rows with
  | nil => exact absurd rfl hne
  | cons vals rest =>
    have herr : ∃ e, noteFromRow velocity (pyDict header vals) = Except.error e := by
      rcases hmiss with h | h | h
      · have h0 := dictGet_not_mem header vals h
        cases hop : dictGet (pyDict header vals) "onpitch" with
        | none => exact ⟨"KeyError: onpitch", by simp [noteFromRow, hop]⟩
        | some op => exact ⟨"KeyError: onset", by simp [noteFromRow, hop, h0]⟩
      · have h0 := dictGet_not_mem header vals h
        cases hop : dictGet (pyDict header vals) "onpitch" with
        | none => exact ⟨"KeyError: onpitch", by simp [noteFromRow, hop]⟩
        | some op =>
          cases hon : dictGet (pyDict header vals) "onset" with
          | none => exact ⟨"KeyError: onset", by simp [noteFromRow, hop, hon]⟩
          | some hs => exact ⟨"KeyError: offset", by simp [noteFromRow, hop, hon, h0]⟩
      · have h0 := dictGet_not_mem header vals h
        exact ⟨"KeyError: onpitch", by simp [noteFromRow, h0]⟩
    obtain ⟨e, he⟩ := herr
    exact ⟨e, by rw [csv_to_midi, he]⟩

theorem C7_missing_column_witness :
    (("onset" : String) ∉ (["onset", "offset"] : List String) ∨
      ("offset" : String) ∉ (["onset", "offset"] : List String) ∨
      ("onpitch" : String) ∉ (["onset", "offset"] : List String)) ∧
    ([[(1 : ℚ), 2]] : List (List ℚ)) ≠ [] ∧
    ∃ e, csv_to_midi ["onset", "offset"] [[(1 : ℚ), 2]] 100 = Except.error e :=
  ⟨by decide, by simp,
    C7_missing_column ["onset", "offset"] [[(1 : ℚ), 2]] 100 (by decide) (by simp)⟩

/-- Claim C8: a health check reports a file invalid exactly for critical
issues — load failure or zero notes for MIDI, load failure or complete
silence for audio — while duration, pitch-range, non-silent-ratio and
clipping findings leave the file valid; and in strict mode any file with
findings makes the aggregate status fail. -/
theorem C8_health_validity :
    (check_midi_file none).valid = false ∧
    (∀ m : MidiData, (check_midi_file (some m)).valid = false ↔ m.notes = []) ∧
    (check_audio_file none).valid = false ∧
    (∀ a : AudioData,
      (check_audio_file (some a)).valid = false ↔ a.maxAmp < 1 / 1000000) ∧
    (∀ (I : Type) (results : List (CheckResult I)) (strict : Bool),
      strict = true → (∃ r ∈ results, r.issues ≠ []) →
      report_status results strict = "fail") := by
  refine ⟨rfl, ?_, rfl, ?_, ?_⟩
  · intro m
    cases hn : m.notes with
    | nil => simp [check_midi_file, hn]
    | cons n ns =>
      simp only [check_midi_file, hn]
      split_ifs <;> simp [criticalM]
  · intro a
    simp only [check_audio_file]
    split_ifs <;> simp_all [criticalA]
  · rintro I results strict hst ⟨r, hr, hi⟩
    subst hst
    rw [report_status]
    by_cases hinv : (results.filter (fun r => !r.valid)).length = 0
    · have hrv : r.valid = true := by
        by_contra hc
        have hmem : r ∈ results.filter (fun r => !r.valid) :=
          List.mem_filter.mpr ⟨hr, by simp [Bool.not_eq_true] at hc; simp [hc]⟩
        rw [List.length_eq_zero] at hinv
        rw [hinv] at hmem
        exact absurd hmem (List.not_mem_nil r)
      have hw : 0 < (results.filter (fun r => r.valid && !r.issues.isEmpty)).length := by
        have hmem : r ∈ results.filter (fun r => r.valid && !r.issues.isEmpty) :=
          List.mem_filter.mpr ⟨hr, by simp [hrv, hi]⟩
        exact List.length_pos.mpr (List.ne_nil_of_mem hmem)
      simp [hinv, hw]
    · simp only [if_neg hinv]
      split_ifs <;> rfl

theorem C8_health_validity_witness :
    report_status [CheckResult.mk true [MIssue.durationLow]] true = "fail" :=
  C8_health_validity.2.2.2.2 MIssue [CheckResult.mk true [MIssue.durationLow]] true rfl
    ⟨CheckResult.mk true [MIssue.durationLow], by simp, by simp⟩

/-- Claim C9 counterexample: with the force flag set, HEAD at exact tag
`v9.9.9` and a clean tree, publishing version `v0.1.0` exits with code 1
instead of proceeding — the tag-mismatch precondition is not overridable by
force. -/
theorem C9_counterexample :
    publish (some "v9.9.9") true true "v0.1.0" false true = PubResult.exited 1 ∧
    PubResult.exited 1 ≠ PubResult.uploaded REPO_ID "v0.1.0" := by
  constructor
  · rfl
  · simp

/-- Claim C9 (amended): publish invokes the upload exactly when the tag gate
passes (HEAD at a tag equal to the version or to `dataset-<version>`, or no
tag at all with force set), the working tree is clean or force is set, the
upload library is importable, and dry-run is off. Force overrides the no-tag
and dirty-tree preconditions, but a mismatching exact tag aborts even with
force. -/
theorem C9_publish_gating (gitTag : Option String) (clean hubInstalled : Bool)
    (version : String) (dryRun force : Bool) :
    publish gitTag clean hubInstalled version dryRun force =
        PubResult.uploaded REPO_ID version ↔
      ((gitTag = none ∧ force = true) ∨
        (∃ t, gitTag = some t ∧ (t = version ∨ "dataset-" ++ version = t))) ∧
      (clean = true ∨ force = true) ∧ hubInstalled = true ∧ dryRun = false := by
  cases gitTag with
  | none =>
    cases force <;> cases clean <;> cases hubInstalled <;> cases dryRun <;>
      simp [publish, REPO_ID]
  | some t =>
    by_cases hm : t = version ∨ "dataset-" ++ version = t
    · have hgate : ¬(t ≠ version ∧ "dataset-" ++ version ≠ t) := by tauto
      cases force <;> cases clean <;> cases hubInstalled <;> cases dryRun <;>
        simp [publish, REPO_ID, hgate, hm]
    · have hgate : t ≠ version ∧ "dataset-" ++ version ≠ t := by tauto
      have hm2 : ¬(t = version ∨ "dataset-" ++ version = t) := hm
      cases force <;> cases clean <;> cases hubInstalled <;> cases dryRun <;>
        simp [publish, REPO_ID, hgate, hm2]
